import Mathlib

/-!
Verification of the collaboration-state synchronizer (`CollabordinatorService`)
of the vitrivr-ng front-end.  The service keeps an ordered, duplicate-free list
of string identifiers, reconciles it against inbound ADD / REMOVE / CLEAR
messages arriving on a WebSocket channel, and manages the channel lifecycle
(`connect`, `available`, the error and close handlers).

The development shallowly embeds the TypeScript source:
  * `tsIndexOf` models JavaScript `Array.prototype.indexOf` (sentinel `-1`);
  * `List.eraseIdx` models `Array.prototype.splice(index, 1)`;
  * `synchronize` is the private `synchronize(msg)` method applied to the
    current value of the `BehaviorSubject`;
  * `ServiceState` / `step` model the mutable fields of the service
    (`_webSocket`, `_config`, the subject's current value) together with the
    externally observable effects of each call (messages sent, values
    published, log lines, channel completions and creations).
-/

namespace Collabordinator

/-- Modelled from the spec (the `collabordinator-message.model` file is not in
the shown sources): the `action` field of a sync message is one of the three
recognised wire values `"ADD"`, `"REMOVE"`, `"CLEAR"`. -/
inductive Action where
  | ADD
  | REMOVE
  | CLEAR
deriving DecidableEq, Repr

/-- Modelled from the spec (the `collabordinator-message.model` file is not in
the shown sources): a sync message `\x7baction, key, attribute\x7d` where
`attribute` carries the identifiers for ADD/REMOVE. -/
structure CollabordinatorMessage where
  action : Action
  key : String
  «attribute» : List String
deriving DecidableEq, Repr

/-- Embedding of JavaScript `Array.prototype.indexOf`: index of the first
occurrence of `v` in `l`, or `-1` when `v` does not occur. -/
def tsIndexOf (l : List String) (v : String) : Int :=
  match l with
  | [] => -1
  | x :: xs =>
      if x = v then 0
      else if tsIndexOf xs v = -1 then -1 else tsIndexOf xs v + 1

/-- One iteration of the ADD loop:
`if (current.indexOf(v) == -1) current.push(v)`. -/
def addStep (cur : List String) (v : String) : List String :=
  if tsIndexOf cur v = -1 then cur ++ [v] else cur

/-- The ADD branch of `synchronize`: `for (let v of msg.attribute) ...`. -/
def syncAdd (current attrs : List String) : List String :=
  attrs.foldl addStep current

/-- One iteration of the REMOVE loop:
`let index = current.indexOf(v); if (index > -1) current.splice(index, 1)`.
`List.eraseIdx` removes the single element at the given position, exactly as
`splice(index, 1)` does. -/
def removeStep (cur : List String) (v : String) : List String :=
  let index : Int := tsIndexOf cur v
  if index > -1 then cur.eraseIdx index.toNat else cur

/-- The REMOVE branch of `synchronize`: `msg.attribute.forEach(v => ...)`. -/
def syncRemove (current attrs : List String) : List String :=
  attrs.foldl removeStep current

/-- The private `synchronize(msg)` method, as a function from the current
value of the `BehaviorSubject` to the value it publishes via `this.next`. -/
def synchronize (msg : CollabordinatorMessage) (current : List String) :
    List String :=
  match msg.action with
  | Action.ADD => syncAdd current msg.«attribute»
  | Action.REMOVE => syncRemove current msg.«attribute»
  | Action.CLEAR => []

/-- Applying a whole sequence of inbound messages starting from the initial
value `[]` of the `BehaviorSubject`. -/
def applyAll (msgs : List CollabordinatorMessage) : List String :=
  msgs.foldl (fun cur m => synchronize m cur) []

/-! ### Basic facts about `tsIndexOf` -/

theorem tsIndexOf_ge_neg_one (l : List String) (v : String) :
    -1 ≤ tsIndexOf l v := by
  induction l with
  | nil => simp [tsIndexOf]
  | cons x xs ih =>
      by_cases hxv : x = v
      · simp [tsIndexOf, hxv]
      · by_cases hr : tsIndexOf xs v = -1
        · simp [tsIndexOf, hxv, hr]
        · simp only [tsIndexOf, if_neg hxv, if_neg hr]
          omega

theorem tsIndexOf_eq_neg_one_iff (l : List String) (v : String) :
    tsIndexOf l v = -1 ↔ v ∉ l := by
  induction l with
  | nil => simp [tsIndexOf]
  | cons x xs ih =>
      by_cases hxv : x = v
      · subst hxv
        simp [tsIndexOf]
      · simp only [tsIndexOf, if_neg hxv]
        by_cases hr : tsIndexOf xs v = -1
        · simp only [hr, if_pos rfl]
          constructor
          · intro _
            intro hmem
            rcases List.mem_cons.mp hmem with h | h
            · exact hxv h.symm
            · exact (ih.mp hr) h
          · intro _
            rfl
        · rw [if_neg hr]
          constructor
          · intro h
            exfalso
            have hge := tsIndexOf_ge_neg_one xs v
            omega
          · intro hmem
            exfalso
            apply hmem
            have : v ∈ xs := by
              by_contra hvx
              exact hr (ih.mpr hvx)
            exact List.mem_cons_of_mem x this

theorem tsIndexOf_nonneg_of_mem (l : List String) (v : String) (h : v ∈ l) :
    0 ≤ tsIndexOf l v := by
  induction l with
  | nil => cases h
  | cons x xs ih =>
      by_cases hxv : x = v
      · simp [tsIndexOf, hxv]
      · have hmem : v ∈ xs := by
          rcases List.mem_cons.mp h with h' | h'
          · exact absurd h'.symm hxv
          · exact h'
        have hr := ih hmem
        have hne : tsIndexOf xs v ≠ -1 := by omega
        simp only [tsIndexOf, if_neg hxv, if_neg hne]
        omega

/-! ### ADD: characterisation -/

theorem addStep_eq_ite (cur : List String) (v : String) :
    addStep cur v = if v ∈ cur then cur else cur ++ [v] := by
  by_cases hv : v ∈ cur
  · have : ¬ tsIndexOf cur v = -1 := by
      intro h
      exact (tsIndexOf_eq_neg_one_iff cur v).mp h hv
    simp [addStep, this, hv]
  · have : tsIndexOf cur v = -1 := (tsIndexOf_eq_neg_one_iff cur v).mpr hv
    simp [addStep, this, hv]

theorem syncAdd_nil (current : List String) : syncAdd current [] = current :=
  rfl

theorem syncAdd_cons (current : List String) (v : String) (rest : List String) :
    syncAdd current (v :: rest) = syncAdd (addStep current v) rest :=
  rfl

theorem syncAdd_decomp (attrs : List String) :
    ∀ current : List String,
      ∃ s, syncAdd current attrs = current ++ s ∧
        s.Sublist attrs ∧ ∀ v ∈ s, v ∉ current := by
  induction attrs with
  | nil =>
      intro current
      exact ⟨[], by simp [syncAdd_nil], List.nil_sublist _, by simp⟩
  | cons v rest ih =>
      intro current
      rw [syncAdd_cons, addStep_eq_ite]
      by_cases hv : v ∈ current
      · rw [if_pos hv]
        obtain ⟨s, hs, hsub, hmem⟩ := ih current
        exact ⟨s, hs, hsub.cons v, hmem⟩
      · rw [if_neg hv]
        obtain ⟨s, hs, hsub, hmem⟩ := ih (current ++ [v])
        refine ⟨v :: s, ?_, hsub.cons₂ v, ?_⟩
        · rw [hs]
          simp
        · intro w hw
          rcases List.mem_cons.mp hw with h | h
          · subst h; exact hv
          · intro hwcur
            exact hmem w h (List.mem_append.mpr (Or.inl hwcur))

theorem mem_syncAdd (attrs : List String) :
    ∀ (current : List String) (v : String),
      v ∈ syncAdd current attrs ↔ v ∈ current ∨ v ∈ attrs := by
  induction attrs with
  | nil =>
      intro current v
      simp [syncAdd_nil]
  | cons a rest ih =>
      intro current v
      rw [syncAdd_cons, addStep_eq_ite]
      by_cases ha : a ∈ current
      · rw [if_pos ha]
        rw [ih current v]
        constructor
        · rintro (h | h)
          · exact Or.inl h
          · exact Or.inr (List.mem_cons_of_mem a h)
        · rintro (h | h)
          · exact Or.inl h
          · rcases List.mem_cons.mp h with h' | h'
            · subst h'; exact Or.inl ha
            · exact Or.inr h'
      · rw [if_neg ha]
        rw [ih (current ++ [a]) v]
        simp only [List.mem_append, List.mem_singleton, List.mem_cons]
        tauto

theorem syncAdd_of_subset (attrs : List String) :
    ∀ current : List String,
      (∀ v ∈ attrs, v ∈ current) → syncAdd current attrs = current := by
  induction attrs with
  | nil =>
      intro current _
      exact syncAdd_nil current
  | cons a rest ih =>
      intro current h
      rw [syncAdd_cons, addStep_eq_ite, if_pos (h a (List.mem_cons_self a rest))]
      exact ih current (fun v hv => h v (List.mem_cons_of_mem a hv))

theorem syncAdd_nodup (attrs : List String) :
    ∀ current : List String, current.Nodup → (syncAdd current attrs).Nodup := by
  induction attrs with
  | nil =>
      intro current h
      exact h
  | cons a rest ih =>
      intro current h
      rw [syncAdd_cons, addStep_eq_ite]
      by_cases ha : a ∈ current
      · rw [if_pos ha]
        exact ih current h
      · rw [if_neg ha]
        apply ih
        simp [List.nodup_append, h, ha]

/-! ### REMOVE: characterisation -/

theorem removeStep_eq_erase (cur : List String) (v : String) :
    removeStep cur v = cur.erase v := by
  induction cur with
  | nil =>
      simp [removeStep, tsIndexOf]
  | cons x xs ih =>
      by_cases hxv : x = v
      · subst hxv
        have h0 : tsIndexOf (x :: xs) x = 0 := by simp [tsIndexOf]
        simp [removeStep, h0, List.eraseIdx, List.erase_cons_head]
      · have hne : (x == v) = false := by
          simp [hxv]
        by_cases hmem : v ∈ xs
        · have hr : 0 ≤ tsIndexOf xs v := tsIndexOf_nonneg_of_mem xs v hmem
          have hrne : tsIndexOf xs v ≠ -1 := by omega
          have hidx : tsIndexOf (x :: xs) v = tsIndexOf xs v + 1 := by
            simp only [tsIndexOf, if_neg hxv, if_neg hrne]
          have htn : (tsIndexOf xs v + 1).toNat = (tsIndexOf xs v).toNat + 1 := by
            omega
          have hstep : removeStep (x :: xs) v
              = (x :: xs).eraseIdx ((tsIndexOf xs v).toNat + 1) := by
            simp only [removeStep, hidx, htn]
            rw [if_pos (by omega : tsIndexOf xs v + 1 > -1)]
          rw [hstep]
          have hxs : xs.eraseIdx (tsIndexOf xs v).toNat = xs.erase v := by
            have hgt' : tsIndexOf xs v > -1 := by omega
            have := ih
            simp only [removeStep, if_pos hgt'] at this
            exact this
          simp [List.eraseIdx, hxs, List.erase_cons_tail, hne]
        · have hr : tsIndexOf xs v = -1 := (tsIndexOf_eq_neg_one_iff xs v).mpr hmem
          have hidx : tsIndexOf (x :: xs) v = -1 := by
            simp [tsIndexOf, hxv, hr]
          have hngt : ¬ tsIndexOf (x :: xs) v > -1 := by omega
          have herase : xs.erase v = xs := List.erase_of_not_mem hmem
          simp [removeStep, if_neg hngt, List.erase_cons_tail, hne, herase]

theorem syncRemove_eq_foldl_erase (attrs : List String) :
    ∀ current : List String,
      syncRemove current attrs
        = attrs.foldl (fun acc v => acc.erase v) current := by
  induction attrs with
  | nil =>
      intro current
      rfl
  | cons a rest ih =>
      intro current
      show syncRemove (removeStep current a) rest = _
      rw [removeStep_eq_erase, ih]
      rfl

theorem syncRemove_singleton (current : List String) (v : String) :
    syncRemove current [v] = current.erase v := by
  show removeStep current v = current.erase v
  exact removeStep_eq_erase current v

theorem syncRemove_nodup (attrs : List String) :
    ∀ current : List String, current.Nodup →
      (syncRemove current attrs).Nodup := by
  induction attrs with
  | nil =>
      intro current h
      exact h
  | cons a rest ih =>
      intro current h
      show (syncRemove (removeStep current a) rest).Nodup
      rw [removeStep_eq_erase]
      exact ih (current.erase a) (h.erase a)

/-! ### `synchronize`: preservation of duplicate-freeness -/

theorem synchronize_nodup (msg : CollabordinatorMessage)
    (current : List String) (h : current.Nodup) :
    (synchronize msg current).Nodup := by
  obtain ⟨act, key, attrs⟩ := msg
  cases act with
  | ADD => exact syncAdd_nodup attrs current h
  | REMOVE => exact syncRemove_nodup attrs current h
  | CLEAR => exact List.nodup_nil

theorem foldl_synchronize_nodup (msgs : List CollabordinatorMessage) :
    ∀ current : List String, current.Nodup →
      (msgs.foldl (fun cur m => synchronize m cur) current).Nodup := by
  induction msgs with
  | nil =>
      intro current h
      exact h
  | cons m rest ih =>
      intro current h
      exact ih (synchronize m current) (synchronize_nodup m current h)

/-! ### The service state machine -/

/-- The `Config` object as far as the service uses it: the value returned by
`config.get<string>("vbs.collabordinator")`.  The constructor's subscription
filters for configurations where this key is non-null, so the stored value is
always a plain string. -/
structure Config where
  vbsCollabordinator : String
deriving DecidableEq, Repr

/-- Externally observable effects of a call or handler: an outbound message on
a channel (`_webSocket.next`), a value published to local observers
(`this.next`), a `console.log` line, the completion of a channel
(`_webSocket.complete`), and the creation-plus-subscription of a new channel
(`webSocket(url)` followed by `subscribe`). -/
inductive Effect where
  | send (channel : Nat) (msg : CollabordinatorMessage)
  | publish (value : List String)
  | log (line : String)
  | completeChannel (channel : Nat)
  | openChannel (channel : Nat) (url : String)
deriving DecidableEq, Repr

/-- The mutable fields of the service.  Channels are identified by a number
(`nextChannelId` supplies fresh identifiers); `webSocket = none` models the
initial `undefined` value of `_webSocket`, and `config = none` the initial
`undefined` value of `_config`.  `value` is the current value of the
`BehaviorSubject` (initially `[]` from `super([])`). -/
structure ServiceState where
  webSocket : Option Nat
  config : Option Config
  value : List String
  nextChannelId : Nat
deriving DecidableEq, Repr

/-- The state right after the constructor ran: `super([])`, no channel, no
configuration yet. -/
def initialState : ServiceState :=
  { webSocket := none, config := none, value := [], nextChannelId := 0 }

/-- Log line of `add`, `remove` and `clear` when no channel exists. -/
def unavailableLog : String :=
  "Collabordinator service is currently not available."

/-- Log line of the on-error handler. -/
def errorLog : String :=
  "Error occurred while communicating with Collabordinator web service"

/-- Log line of the on-close handler. -/
def closeLog : String :=
  "Connection to Collabordinator web service was closed."

/-- The public `add(...id)` method. -/
def add (s : ServiceState) (id : List String) : ServiceState × List Effect :=
  match s.webSocket with
  | some ch => (s, [Effect.send ch ⟨Action.ADD, "vitrivr", id⟩])
  | none => (s, [Effect.log unavailableLog])

/-- The public `remove(...id)` method. -/
def remove (s : ServiceState) (id : List String) :
    ServiceState × List Effect :=
  match s.webSocket with
  | some ch => (s, [Effect.send ch ⟨Action.REMOVE, "vitrivr", id⟩])
  | none => (s, [Effect.log unavailableLog])

/-- The public `clear()` method. -/
def clear (s : ServiceState) : ServiceState × List Effect :=
  match s.webSocket with
  | some ch => (s, [Effect.send ch ⟨Action.CLEAR, "vitrivr", []⟩])
  | none => (s, [Effect.log unavailableLog])

/-- The public `connect()` method: returns the new state, the effects in
order, and the boolean result.  With no configuration it returns `false` at
once; otherwise, if a channel exists it completes it and publishes `[]`,
then it creates and subscribes a fresh channel and returns `true`. -/
def connect (s : ServiceState) : ServiceState × List Effect × Bool :=
  match s.config with
  | none => (s, [], false)
  | some cfg =>
      let closed : ServiceState × List Effect :=
        match s.webSocket with
        | some ch =>
            ({ s with value := [] },
             [Effect.completeChannel ch, Effect.publish []])
        | none => (s, [])
      let s1 := closed.fst
      let ch := s1.nextChannelId
      ({ s1 with webSocket := some ch, nextChannelId := ch + 1 },
       closed.snd ++ [Effect.openChannel ch cfg.vbsCollabordinator],
       true)

/-- The on-message handler registered by `connect`:
`v => this.synchronize(v)`, where `synchronize` ends in `this.next(current)`. -/
def onMessage (s : ServiceState) (msg : CollabordinatorMessage) :
    ServiceState × List Effect :=
  let v := synchronize msg s.value
  ({ s with value := v }, [Effect.publish v])

/-- The on-error handler registered by `connect`: log, then `this.next([])`. -/
def onError (s : ServiceState) : ServiceState × List Effect :=
  ({ s with value := [] }, [Effect.log errorLog, Effect.publish []])

/-- The on-close handler registered by `connect`: log, then `this.next([])`. -/
def onClose (s : ServiceState) : ServiceState × List Effect :=
  ({ s with value := [] }, [Effect.log closeLog, Effect.publish []])

/-- The public `available()` method: `this._webSocket != null`. -/
def available (s : ServiceState) : Bool :=
  s.webSocket.isSome

/-- The external events that can reach the service: the public mutation
calls, an explicit `connect()` call, a configuration snapshot with a
non-null `"vbs.collabordinator"` key (which stores the config and calls
`connect()`, as in the constructor's subscription), and the three channel
events.  Channel events can only fire once a channel exists. -/
inductive Event where
  | evAdd (id : List String)
  | evRemove (id : List String)
  | evClear
  | evConnect
  | evConfig (c : Config)
  | evMessage (msg : CollabordinatorMessage)
  | evError
  | evClose
deriving DecidableEq, Repr

/-- One event applied to the service state. -/
def step (s : ServiceState) (e : Event) : ServiceState × List Effect :=
  match e with
  | Event.evAdd id => add s id
  | Event.evRemove id => remove s id
  | Event.evClear => clear s
  | Event.evConnect => ((connect s).fst, (connect s).snd.fst)
  | Event.evConfig c =>
      let s1 : ServiceState := { s with config := some c }
      ((connect s1).fst, (connect s1).snd.fst)
  | Event.evMessage msg =>
      if s.webSocket.isSome then onMessage s msg else (s, [])
  | Event.evError =>
      if s.webSocket.isSome then onError s else (s, [])
  | Event.evClose =>
      if s.webSocket.isSome then onClose s else (s, [])

/-- A whole sequence of events applied to the service state. -/
def run (s : ServiceState) (events : List Event) : ServiceState :=
  events.foldl (fun st e => (step st e).fst) s

/-! ### Step lemmas for the state machine -/

theorem connect_webSocket_of_config (s : ServiceState) (cfg : Config)
    (h : s.config = some cfg) :
    (connect s).fst.webSocket = some (connect s).fst.nextChannelId.pred := by
  cases hws : s.webSocket <;> simp [connect, h, hws]

theorem available_step (s : ServiceState) (e : Event)
    (h : available s = true) : available (step s e).fst = true := by
  cases e with
  | evAdd id =>
      cases hws : s.webSocket with
      | none => simp [available, hws] at h
      | some ch => simp [step, add, hws, available]
  | evRemove id =>
      cases hws : s.webSocket with
      | none => simp [available, hws] at h
      | some ch => simp [step, remove, hws, available]
  | evClear =>
      cases hws : s.webSocket with
      | none => simp [available, hws] at h
      | some ch => simp [step, clear, hws, available]
  | evConnect =>
      cases hcfg : s.config with
      | none => simpa [step, connect, hcfg, available] using h
      | some cfg =>
          cases hws : s.webSocket <;> simp [step, connect, hcfg, hws, available]
  | evConfig c =>
      cases hws : s.webSocket <;> simp [step, connect, hws, available]
  | evMessage msg =>
      by_cases hws : s.webSocket.isSome
      · simp [step, onMessage, hws, available]
      · simp only [step, if_neg hws]
        exact h
  | evError =>
      by_cases hws : s.webSocket.isSome
      · simp [step, onError, hws, available]
      · simp only [step, if_neg hws]
        exact h
  | evClose =>
      by_cases hws : s.webSocket.isSome
      · simp [step, onClose, hws, available]
      · simp only [step, if_neg hws]
        exact h

theorem available_run (events : List Event) :
    ∀ s : ServiceState, available s = true →
      available (run s events) = true := by
  induction events with
  | nil =>
      intro s h
      exact h
  | cons e rest ih =>
      intro s h
      exact ih (step s e).fst (available_step s e h)

/-- A concrete connected state used by the closed witness and counterexample
theorems: one channel (id `0`) is open, the configuration is known, and the
current set is `["a"]`. -/
def sampleConnectedState : ServiceState :=
  { webSocket := some 0, config := some ⟨"ws://collab"⟩,
    value := ["a"], nextChannelId := 1 }

/-! ### The claims -/

/-- C1: for every current set and inbound ADD message, `synchronize` appends
each identifier of the attribute list only if it is not already present:
identifiers already in the set keep their position (the old set stays an
unchanged front segment), new identifiers are appended in attribute order
(the appended segment is a sublist of the attribute list and disjoint from
the old set), membership is the union, and applying the same ADD again
leaves the set unchanged. -/
theorem add_appends_new_only (current attrs : List String) (key : String) :
    (∃ s, synchronize ⟨Action.ADD, key, attrs⟩ current = current ++ s ∧
        s.Sublist attrs ∧ ∀ v ∈ s, v ∉ current) ∧
    (∀ v, v ∈ synchronize ⟨Action.ADD, key, attrs⟩ current ↔
        v ∈ current ∨ v ∈ attrs) ∧
    synchronize ⟨Action.ADD, key, attrs⟩
        (synchronize ⟨Action.ADD, key, attrs⟩ current)
      = synchronize ⟨Action.ADD, key, attrs⟩ current := by
  refine ⟨syncAdd_decomp attrs current, fun v => mem_syncAdd attrs current v, ?_⟩
  show syncAdd (syncAdd current attrs) attrs = syncAdd current attrs
  apply syncAdd_of_subset
  intro v hv
  exact (mem_syncAdd attrs current v).mpr (Or.inr hv)

/-- Witness for C1 at a concrete input: re-applying the same ADD leaves the
set unchanged. -/
theorem add_appends_new_only_witness :
    synchronize ⟨Action.ADD, "vitrivr", ["a", "b"]⟩
        (synchronize ⟨Action.ADD, "vitrivr", ["a", "b"]⟩ ["a"])
      = synchronize ⟨Action.ADD, "vitrivr", ["a", "b"]⟩ ["a"] :=
  (add_appends_new_only ["a"] ["a", "b"] "vitrivr").2.2

/-- C2: for every current set and inbound REMOVE message, `synchronize`
removes, identifier by identifier, the first matching occurrence
(`List.erase` removes exactly the first occurrence), and an identifier that
is absent leaves the set unchanged. -/
theorem remove_erases_first (current attrs : List String) (key : String) :
    synchronize ⟨Action.REMOVE, key, attrs⟩ current
        = attrs.foldl (fun acc v => acc.erase v) current ∧
    (∀ v, synchronize ⟨Action.REMOVE, key, [v]⟩ current = current.erase v) ∧
    (∀ v, v ∉ current →
        synchronize ⟨Action.REMOVE, key, [v]⟩ current = current) := by
  refine ⟨syncRemove_eq_foldl_erase attrs current,
    fun v => syncRemove_singleton current v, fun v hv => ?_⟩
  show syncRemove current [v] = current
  rw [syncRemove_singleton current v]
  exact List.erase_of_not_mem hv

/-- Witness for C2 at a concrete input: removing an absent identifier is a
no-op. -/
theorem remove_erases_first_witness :
    synchronize ⟨Action.REMOVE, "vitrivr", ["c"]⟩ ["a", "b"] = ["a", "b"] :=
  (remove_erases_first ["a", "b"] ["c"] "vitrivr").2.2 "c" (by decide)

/-- C3: applying an inbound CLEAR message yields the empty set, whatever the
prior contents of the set (and whatever the message's key and attribute
list). -/
theorem clear_yields_empty (current : List String) (key : String)
    (attrs : List String) :
    synchronize ⟨Action.CLEAR, key, attrs⟩ current = [] :=
  rfl

/-- C4: starting from the empty set, every finite sequence of inbound
messages applied via `synchronize` produces a duplicate-free set, and each
single application of `synchronize` preserves duplicate-freeness. -/
theorem no_duplicates_invariant (msgs : List CollabordinatorMessage) :
    (applyAll msgs).Nodup ∧
    ∀ (current : List String) (msg : CollabordinatorMessage),
      current.Nodup → (synchronize msg current).Nodup :=
  ⟨foldl_synchronize_nodup msgs [] List.nodup_nil,
   fun current msg h => synchronize_nodup msg current h⟩

/-- Witness for C4 at a concrete input: one preservation step evaluated. -/
theorem no_duplicates_invariant_witness :
    (synchronize ⟨Action.ADD, "vitrivr", ["a"]⟩ ["b"]).Nodup :=
  (no_duplicates_invariant []).2 ["b"] ⟨Action.ADD, "vitrivr", ["a"]⟩
    (by decide)

/-- C5, counterexample: in a concrete connected state with set `["a"]`, the
on-error handler empties the set and logs the error, yet `available()` does
not become `false`: the handler never clears the channel reference. -/
theorem error_leaves_available_counterexample :
    (onError sampleConnectedState).fst.value = [] ∧
    Effect.log errorLog ∈ (onError sampleConnectedState).snd ∧
    available (onError sampleConnectedState).fst ≠ false := by
  decide

/-- C5, amended: when the on-error handler fires, the published set is reset
to exactly empty and the error is logged, but the channel reference is left
unchanged, so `available()` keeps its previous value — in particular it
still returns `true` whenever a channel existed. -/
theorem error_resets_and_logs (s : ServiceState) :
    (onError s).fst.value = [] ∧
    (onError s).snd = [Effect.log errorLog, Effect.publish []] ∧
    (onError s).fst.webSocket = s.webSocket ∧
    (available s = true → available (onError s).fst = true) := by
  refine ⟨rfl, rfl, rfl, fun h => ?_⟩
  simpa [available, onError] using h

/-- Witness for the amended C5 at a concrete connected state. -/
theorem error_resets_and_logs_witness :
    available (onError sampleConnectedState).fst = true :=
  (error_resets_and_logs sampleConnectedState).2.2.2 (by decide)

/-- C6: `connect()` called while a channel exists first completes the old
channel and publishes the empty set, then creates and subscribes the new
channel, and returns `true`. -/
theorem connect_closes_old_then_opens (s : ServiceState) (ch : Nat)
    (cfg : Config) (hws : s.webSocket = some ch) (hcfg : s.config = some cfg) :
    (connect s).snd.snd = true ∧
    (connect s).snd.fst
      = [Effect.completeChannel ch, Effect.publish [],
         Effect.openChannel s.nextChannelId cfg.vbsCollabordinator] ∧
    (connect s).fst.value = [] ∧
    (connect s).fst.webSocket = some s.nextChannelId := by
  simp [connect, hcfg, hws]

/-- Witness for C6 at a concrete connected state. -/
theorem connect_closes_old_then_opens_witness :
    (connect sampleConnectedState).snd.snd = true ∧
    (connect sampleConnectedState).snd.fst
      = [Effect.completeChannel 0, Effect.publish [],
         Effect.openChannel 1 "ws://collab"] :=
  ⟨(connect_closes_old_then_opens sampleConnectedState 0 ⟨"ws://collab"⟩
      rfl rfl).1,
   (connect_closes_old_then_opens sampleConnectedState 0 ⟨"ws://collab"⟩
      rfl rfl).2.1⟩

/-- C7: `connect()` with no known configuration returns `false` and leaves
the whole state untouched, with no effect emitted. -/
theorem connect_without_config (s : ServiceState) (h : s.config = none) :
    connect s = (s, [], false) := by
  simp [connect, h]

/-- Witness for C7 at the initial state. -/
theorem connect_without_config_witness :
    connect initialState = (initialState, [], false) :=
  connect_without_config initialState rfl

/-- C8: `add`, `remove` and `clear` never change the service state (in
particular the published set) synchronously; with a channel they emit
exactly one outbound message, and without a channel they emit exactly one
log line — no message, no state change, no failure. -/
theorem mutation_calls_never_touch_state (s : ServiceState)
    (id : List String) :
    (add s id).fst = s ∧ (remove s id).fst = s ∧ (clear s).fst = s ∧
    (∀ ch, s.webSocket = some ch →
      (add s id).snd = [Effect.send ch ⟨Action.ADD, "vitrivr", id⟩] ∧
      (remove s id).snd = [Effect.send ch ⟨Action.REMOVE, "vitrivr", id⟩] ∧
      (clear s).snd = [Effect.send ch ⟨Action.CLEAR, "vitrivr", []⟩]) ∧
    (s.webSocket = none →
      (add s id).snd = [Effect.log unavailableLog] ∧
      (remove s id).snd = [Effect.log unavailableLog] ∧
      (clear s).snd = [Effect.log unavailableLog]) := by
  cases hws : s.webSocket with
  | none => simp [add, remove, clear, hws]
  | some ch => simp [add, remove, clear, hws]

/-- Witness for C8 at a concrete connected state. -/
theorem mutation_calls_never_touch_state_witness :
    (add sampleConnectedState ["x"]).fst = sampleConnectedState ∧
    (add sampleConnectedState ["x"]).snd
      = [Effect.send 0 ⟨Action.ADD, "vitrivr", ["x"]⟩] :=
  ⟨(mutation_calls_never_touch_state sampleConnectedState ["x"]).1,
   ((mutation_calls_never_touch_state sampleConnectedState ["x"]).2.2.2.1
      0 rfl).1⟩

/-- C9, counterexample: in a concrete connected state with set `["a"]`, a
`connect()` call — not a received sync message — changes the published set
(it resets it to empty). -/
theorem connect_resets_set_counterexample :
    (step sampleConnectedState Event.evConnect).fst.value
        ≠ sampleConnectedState.value ∧
    (step sampleConnectedState Event.evConnect).fst.value = [] := by
  decide

/-- C9, amended: the published set is changed only by `synchronize` applied
to a received message, or reset to empty by `connect()` (also when triggered
by a configuration snapshot) while a channel already exists and by the
channel error/close handlers; every other event leaves the set unchanged. -/
theorem set_mutation_sources (s : ServiceState) (e : Event) :
    (step s e).fst.value = s.value ∨
    ((step s e).fst.value = [] ∧
      (e = Event.evConnect ∨ (∃ c, e = Event.evConfig c) ∨
        e = Event.evError ∨ e = Event.evClose)) ∨
    (∃ msg, e = Event.evMessage msg ∧
      (step s e).fst.value = synchronize msg s.value) := by
  cases e with
  | evAdd id =>
      left
      cases hws : s.webSocket <;> simp [step, add, hws]
  | evRemove id =>
      left
      cases hws : s.webSocket <;> simp [step, remove, hws]
  | evClear =>
      left
      cases hws : s.webSocket <;> simp [step, clear, hws]
  | evConnect =>
      cases hcfg : s.config with
      | none =>
          left
          simp [step, connect, hcfg]
      | some cfg =>
          cases hws : s.webSocket with
          | none =>
              left
              simp [step, connect, hcfg, hws]
          | some ch =>
              right; left
              exact ⟨by simp [step, connect, hcfg, hws], Or.inl rfl⟩
  | evConfig c =>
      cases hws : s.webSocket with
      | none =>
          left
          simp [step, connect, hws]
      | some ch =>
          right; left
          exact ⟨by simp [step, connect, hws], Or.inr (Or.inl ⟨c, rfl⟩)⟩
  | evMessage msg =>
      by_cases hws : s.webSocket.isSome
      · right; right
        exact ⟨msg, rfl, by simp [step, onMessage, hws]⟩
      · left
        simp [step, hws]
  | evError =>
      by_cases hws : s.webSocket.isSome
      · right; left
        exact ⟨by simp [step, onError, hws], Or.inr (Or.inr (Or.inl rfl))⟩
      · left
        simp [step, hws]
  | evClose =>
      by_cases hws : s.webSocket.isSome
      · right; left
        exact ⟨by simp [step, onClose, hws], Or.inr (Or.inr (Or.inr rfl))⟩
      · left
        simp [step, hws]

/-- C10: `available()` never reverts from `true` to `false`: once a channel
object exists, it stays after every sequence of events — no operation or
channel event resets the channel reference to null. -/
theorem available_never_reverts (s : ServiceState) (events : List Event)
    (h : available s = true) : available (run s events) = true :=
  available_run events s h

/-- Witness for C10: a connected state stays available through an error, a
close, a reconnect and a mutation call. -/
theorem available_never_reverts_witness :
    available (run sampleConnectedState
      [Event.evError, Event.evClose, Event.evConnect, Event.evClear])
      = true :=
  available_never_reverts sampleConnectedState
    [Event.evError, Event.evClose, Event.evConnect, Event.evClear]
    (by decide)

end Collabordinator
